import Mathlib

/-!
Shallow embedding of `src/rct/Value.cpp`: the tagged-union `Value` type, the
cJSON tree bridge (`fromCJSON`, `Value::toCJSON`, `Value::fromJSON`), and the
two formatters (`JSONFormatter`, `StringFormatter`).

Text is modelled as a list of bytes (`List Nat`, each entry < 256 on every
input we care about).  `char` is modelled as signed (the x86-64 / Linux ABI
this code base targets), which matters in the JSON escape routine.  Machine
doubles are modelled as rationals: every value the claims exercise (integers,
halves) is exactly representable, and the only double operations the source
performs are truncation to `int` and equality, both exact.
-/

/-- ASCII bytes of a Lean string literal (used only for readable constants). -/
def bytes (s : String) : List Nat := s.data.map Char.toNat

/-- Value of a byte read through a (signed) `char`, as on x86-64 Linux:
bytes `>= 0x80` read as negative. -/
def signedChar (b : Nat) : Int := if b < 128 then (b : Int) else (b : Int) - 256

/-- Lowercase hexadecimal digits of `n`, most significant first, zero-padded
to at least four digits — the output of `%04x` for a non-negative argument.
(`Nat.toDigits 16` uses lowercase letters.) -/
def hexMin4 (n : Nat) : List Nat :=
  let ds := (Nat.toDigits 16 n).map Char.toNat
  List.replicate (4 - ds.length) 48 ++ ds

/-- Output of `snprintf(buffer, 7, "\\u%04x", ch)` followed by `strlen`:
`ch` is the integer promotion of the (signed) char `b`; `%x` reads it as a
32-bit unsigned value; the 7-byte buffer truncates the text to 6 characters.
For `0 <= ch < 0x80` this yields ``\u00XX``; for negative `ch` (bytes
`>= 0x80`) the eight hex digits `ffffffXX` are cut down to `ffff`. -/
def uEscape (b : Nat) : List Nat :=
  bytes "\\u" ++ (hexMin4 ((signedChar b % (2 ^ 32)).toNat)).take 4

/-- The `switch` of the escape lambda (Value.cpp:153-171) for one byte:
`some seq` when the byte is escaped (the text emitted via `put`), `none`
when it passes through. -/
def escSeq (b : Nat) : Option (List Nat) :=
  if b = 8 then some (bytes "\\b")
  else if b = 12 then some (bytes "\\f")
  else if b = 10 then some (bytes "\\n")
  else if b = 9 then some (bytes "\\t")
  else if b = 13 then some (bytes "\\r")
  else if b = 34 then some (bytes "\\\"")
  else if b = 92 then some (bytes "\\\\")
  else if signedChar b < 0x20 ∨ signedChar b = 127 then some (uEscape b)
  else none

/-- The for-loop of the escape lambda (Value.cpp:152-175).  `str` is the whole
string, the first list argument the bytes not yet consumed, `i` the index of
the next byte, `hasEscaped` the lazy-flush flag: before the first escape
nothing is emitted; `put` flushes the unescaped prefix `str.take i` once;
afterwards raw bytes are emitted one by one; if the loop ends with no escape,
the whole string is emitted verbatim. -/
def escGo (str : List Nat) : List Nat → Nat → Bool → List Nat
  | [], _, hasEscaped => if hasEscaped then [] else str
  | b :: rest, i, hasEscaped =>
    match escSeq b with
    | some e => (if hasEscaped then e else str.take i ++ e) ++ escGo str rest (i + 1) true
    | none => (if hasEscaped then [b] else []) ++ escGo str rest (i + 1) hasEscaped

/-- The escape lambda of `JSONFormatter::format` (Value.cpp:138-177): a double
quote, the loop, a closing double quote. -/
def escape (str : List Nat) : List Nat := [34] ++ escGo str str 0 false ++ [34]

/-- Lexicographic byte order on strings: `operator<` of the `String` keys of
`Map<String, Value>` (a `std::map`). -/
def keyLt : List Nat → List Nat → Bool
  | [], [] => false
  | [], _ :: _ => true
  | _ :: _, [] => false
  | a :: as, b :: bs => if a < b then true else if b < a then false else keyLt as bs

/-- Truncation of a real (double) value by a C `(int)` cast: rounding toward
zero, exact on the rationals we use.  This is the `valueint` field cJSON
derives from `valuedouble` (`item->valueint = (int)n`, likewise in
`cJSON_CreateNumber`). -/
def cintOf (q : ℚ) : Int := q.num.tdiv (q.den : Int)

/-- The C-string view taken by `constData()`: bytes up to the first NUL. -/
def cstr (s : List Nat) : List Nat := s.takeWhile (fun b => !(b = 0 : Bool))

/-- The rct `Value` tagged union (Value.h is not in the repository; the
variant list and payloads follow the spec's data model).  `String` payloads
are byte strings; `Double` payloads are modelled as rationals; `Date` holds
its time value (`toDate().time()`, an integer); `Custom` is modelled by the
one capability its payload exposes, the `toString()` text (the handle is
assumed non-null); `Map` is the sorted unique-key entry list of a
`std::map<String, Value>`. -/
inductive Value where
  | invalid : Value
  | undefined : Value
  | boolean : Bool → Value
  | integer : Int → Value
  | double : ℚ → Value
  | string : List Nat → Value
  | date : Int → Value
  | list : List Value → Value
  | map : List (List Nat × Value) → Value
  | custom : List Nat → Value
deriving Repr

/-- The cJSON parse-tree node (external collaborator; shape per the spec:
kinds False, True, Null, Number, String, Array, Object, plus the raw-string
kind `cJSON_RawString` that `Value::toCJSON` produces for `Custom`).  A
`number` node carries `valuedouble`; its `valueint` field is `cintOf` of it,
the relation both cJSON's parser and `cJSON_CreateNumber` establish. -/
inductive CJSON where
  | false_ : CJSON
  | true_ : CJSON
  | null : CJSON
  | number : ℚ → CJSON
  | string : List Nat → CJSON
  | rawString : List Nat → CJSON
  | array : List CJSON → CJSON
  | object : List (List Nat × CJSON) → CJSON
deriving Repr

/-- Insertion into the sorted unique-key entry list of a `std::map`:
`values[k] = v` navigates by `operator<` and overwrites the mapped value when
neither key compares less than the other. -/
def insertKV : List (List Nat × Value) → List Nat → Value → List (List Nat × Value)
  | [], k, v => [(k, v)]
  | (k', v') :: rest, k, v =>
    if keyLt k k' then (k, v) :: (k', v') :: rest
    else if keyLt k' k then (k', v') :: insertKV rest k v
    else (k', v) :: rest

/-- Lookup in the entry list of a `std::map` (keys are unique, so linear
search by equality is adequate). -/
def lookupKV : List (List Nat × Value) → List Nat → Option Value
  | [], _ => none
  | (k', v') :: rest, k => if k = k' then some v' else lookupKV rest k

mutual

/-- Embedding of `static Value fromCJSON(const cJSON *object)` (Value.cpp:50-79).
The `switch` has no case for the raw-string kind, so such a node falls
through to `return Value()` (an `Invalid` value), as does `cJSON_NULL`.
A number node becomes `Integer` exactly when `valueint == valuedouble`
(the `int` is converted to `double` for the comparison). -/
def fromCJSON : CJSON → Value
  | .false_ => .boolean false
  | .true_ => .boolean true
  | .null => .invalid
  | .number q => if (cintOf q : ℚ) = q then .integer (cintOf q) else .double q
  | .string s => .string s
  | .rawString _ => .invalid
  | .array cs => .list (fromCJSONArray cs)
  | .object cs => .map (fromCJSONObject cs [])

/-- The `cJSON_Array` loop of `fromCJSON`: children converted in order and
appended (`values.append(fromCJSON(child))`). -/
def fromCJSONArray : List CJSON → List Value
  | [] => []
  | c :: rest => fromCJSON c :: fromCJSONArray rest

/-- The `cJSON_Object` loop of `fromCJSON`: `values[child->string] =
fromCJSON(child)` over the children in order, accumulating into the
`std::map` entry list `acc` (so a later duplicate key overwrites). -/
def fromCJSONObject : List (List Nat × CJSON) → List (List Nat × Value) →
    List (List Nat × Value)
  | [], acc => acc
  | (k, c) :: rest, acc => fromCJSONObject rest (insertKV acc k (fromCJSON c))

end

mutual

/-- Embedding of `cJSON *Value::toCJSON(const Value &value)` (Value.cpp:97-130).
`Type_Date` falls through to the `Type_Integer` case and becomes a numeric
node holding `toInteger()`, i.e. the date's time value.  Strings and map
keys pass through `constData()`, hence `cstr`.  `Type_Custom` creates a
string node from the payload's `toString()` and retags it `cJSON_RawString`
(the payload handle is modelled as non-null). -/
def toCJSON : Value → CJSON
  | .boolean b => if b then .true_ else .false_
  | .date t => .number (t : ℚ)
  | .integer i => .number (i : ℚ)
  | .double d => .number d
  | .string s => .string (cstr s)
  | .list l => .array (toCJSONList l)
  | .map m => .object (toCJSONMap m)
  | .invalid => .null
  | .undefined => .null
  | .custom s => .rawString (cstr s)

/-- The `Type_List` loop of `toCJSON`: `cJSON_AddItemToArray` in order. -/
def toCJSONList : List Value → List CJSON
  | [] => []
  | v :: rest => toCJSON v :: toCJSONList rest

/-- The `Type_Map` loop of `toCJSON`: `cJSON_AddItemToObject(object,
v.first.constData(), ...)` in the map's iteration order. -/
def toCJSONMap : List (List Nat × Value) → List (List Nat × CJSON)
  | [] => []
  | (k, v) :: rest => (cstr k, toCJSON v) :: toCJSONMap rest

end

/-- Embedding of `Value Value::fromJSON(const char *json, bool *ok)`
(Value.cpp:81-95), with the external `cJSON_Parse` result passed in: `none`
when the text is not syntactically valid (a null tree), `some t` on success.
On failure `*ok = false` and the default-constructed (`Invalid`) value is
returned; on success `*ok = true` and the converted tree. -/
def fromJSON (parsed : Option CJSON) : Value × Bool :=
  match parsed with
  | none => (Value.invalid, false)
  | some t => (fromCJSON t, true)

/-- Modelled from the spec: `parse(serialize(v, false))` with the external
cJSON printer/parser pair (`cJSON_PrintUnformatted` / `cJSON_Parse`), which
the spec specifies only at its interface, modelled as faithful on trees
(printing a tree and reparsing the text yields the same tree).  What remains
is the repository's own bridge, `fromCJSON` after `Value::toCJSON`. -/
def roundTrip (v : Value) : Value := fromCJSON (toCJSON v)

/-- External text hooks the formatters call: `String::formatTime` (rendering
a timestamp; external utility, not in the repository) and the `%g` rendering
of a double (implementation-defined per the spec).  Both are parameters: no
claim depends on their output. -/
structure Hooks where
  formatTime : Int → List Nat
  fmtDouble : ℚ → List Nat

/-- Concrete instantiation of the external hooks, used to state closed
evaluations of inputs that contain no `Date` and no `Double`. -/
def hooksStub : Hooks := ⟨fun _ => [], fun _ => []⟩

/-- Output of `snprintf(buf, 128, "%d", value.toInteger())`: decimal digits,
with a leading minus sign for negative values. -/
def intDec (i : Int) : List Nat := bytes (toString i)

mutual

/-- Embedding of `JSONFormatter::format` (Value.cpp:135-240): the
concatenation, in call order, of every chunk passed to `output`. -/
def jsonFormat (E : Hooks) : Value → List Nat
  | .invalid => bytes "null"
  | .undefined => bytes "null"
  | .boolean b => if b then bytes "true" else bytes "false"
  | .integer i => intDec i
  | .double d => E.fmtDouble d
  | .string s => escape s
  | .custom s => escape s
  | .map m => bytes "\x7b" ++ jsonFormatMap E m ++ bytes "\x7d"
  | .list l => bytes "[" ++ jsonFormatList E l ++ bytes "]"
  | .date t => escape (E.formatTime t)

/-- The `Type_List` loop of `JSONFormatter::format`: a `","` before every
element but the first. -/
def jsonFormatList (E : Hooks) : List Value → List Nat
  | [] => []
  | [v] => jsonFormat E v
  | v :: rest => jsonFormat E v ++ bytes "," ++ jsonFormatList E rest

/-- The `Type_Map` loop of `JSONFormatter::format`: for each entry the
escaped key, `":"`, the recursively formatted value, with a `","` before
every entry but the first. -/
def jsonFormatMap (E : Hooks) : List (List Nat × Value) → List Nat
  | [] => []
  | [(k, v)] => escape k ++ bytes ":" ++ jsonFormat E v
  | (k, v) :: rest => escape k ++ bytes ":" ++ jsonFormat E v ++ bytes "," ++ jsonFormatMap E rest

end

/-- Output of `String::format<128>("%*s%s: ", indent - 1, " ", key)` up to the
key: `%*s` right-justifies the one-character string `" "` in a field of
width `w`, producing `max w 1` spaces (field width is a minimum, so width 0
still prints the single space of the argument). -/
def pad (w : Nat) : List Nat := List.replicate (max w 1) 32

mutual

/-- Embedding of `StringFormatter::format` (Value.cpp:257-323) with the
`indent` member passed explicitly (`Value::format()` starts it at 0; only
the `Type_Map` case increments it).  String-like cases set `str` and emit it
after the switch (emitting nothing when it is empty, which coincides with
emitting the empty string).  Note the off-by-one length arguments in the
`Type_List` case: `output("[ ", 1)` emits only `"["` and `output(", ", 1)`
emits only `","`, while `output(" ]", 2)` emits both characters. -/
def stringFormat (E : Hooks) (ind : Nat) : Value → List Nat
  | .invalid => bytes "null"
  | .undefined => bytes "null"
  | .boolean b => if b then bytes "true" else bytes "false"
  | .integer i => intDec i
  | .double d => E.fmtDouble d
  | .string s => s
  | .custom s => s
  | .date t => E.formatTime t
  | .map m => stringFormatMap E (ind + 1) m
  | .list l => bytes "[" ++ stringFormatList E ind l ++ bytes " ]"

/-- The `Type_Map` loop of `StringFormatter::format`, at the already
incremented indent `ind`: per entry, the `%*s` padding of width `ind - 1`,
the key, `": "`, the value formatted into the line buffer at the same
(incremented) indent, then a newline. -/
def stringFormatMap (E : Hooks) (ind : Nat) : List (List Nat × Value) → List Nat
  | [] => []
  | (k, v) :: rest =>
    pad (ind - 1) ++ k ++ bytes ": " ++ stringFormat E ind v ++ [10] ++
      stringFormatMap E ind rest

/-- The `Type_List` loop of `StringFormatter::format`: elements at the same
indent, separated by the one emitted byte `","` of `output(", ", 1)`. -/
def stringFormatList (E : Hooks) (ind : Nat) : List Value → List Nat
  | [] => []
  | [v] => stringFormat E ind v
  | v :: rest => stringFormat E ind v ++ bytes "," ++ stringFormatList E ind rest

end

mutual

/-- The fragment of values for which the serialize/parse round trip can hold:
built only from Boolean, Integer, Double, String, List and Map, where every
Double sub-value is non-integral (an integral double collapses to `Integer`
in `fromCJSON`), every String payload and Map key is NUL-free (`constData()`
truncates at the first NUL), and every Map entry list satisfies the
`std::map` invariant of strictly increasing keys. -/
def goodValue : Value → Bool
  | .boolean _ => true
  | .integer _ => true
  | .double d => !(decide ((cintOf d : ℚ) = d))
  | .string s => s.all (fun b => !(b = 0 : Bool))
  | .list l => goodList l
  | .map m => goodMap m
  | _ => false

/-- Every element of a list value lies in the round-trip fragment. -/
def goodList : List Value → Bool
  | [] => true
  | v :: rest => goodValue v && goodList rest

/-- Map entries: NUL-free keys, strictly increasing (each key below all later
keys), values in the round-trip fragment. -/
def goodMap : List (List Nat × Value) → Bool
  | [] => true
  | (k, v) :: rest =>
    k.all (fun b => !(b = 0 : Bool)) && goodValue v &&
      rest.all (fun kv => keyLt k kv.1) && goodMap rest

end

/-! Helper lemmas about the key order and the map entry list. -/

theorem keyLt_irrefl (k : List Nat) : keyLt k k = false := by
  induction k with
  | nil => rfl
  | cons a as ih => simp [keyLt, ih]

theorem keyLt_asymm (a : List Nat) : ∀ b, keyLt a b = true → keyLt b a = false := by
  induction a with
  | nil =>
    intro b h
    cases b with
    | nil => simp [keyLt] at h
    | cons y ys => simp [keyLt]
  | cons x xs ih =>
    intro b h
    cases b with
    | nil => simp [keyLt] at h
    | cons y ys =>
      simp only [keyLt] at h ⊢
      by_cases h1 : x < y
      · have h2 : ¬ y < x := by omega
        simp [h1, h2]
      · by_cases h2 : y < x
        · simp [h1, h2] at h
        · simp only [h1, h2, if_false] at h ⊢
          exact ih ys h

theorem keyLt_conn (a : List Nat) :
    ∀ b, keyLt a b = false → keyLt b a = false → a = b := by
  induction a with
  | nil =>
    intro b h1 _
    cases b with
    | nil => rfl
    | cons y ys => simp [keyLt] at h1
  | cons x xs ih =>
    intro b h1 h2
    cases b with
    | nil => simp [keyLt] at h2
    | cons y ys =>
      simp only [keyLt] at h1 h2
      by_cases hxy : x < y
      · simp [hxy] at h1
      · by_cases hyx : y < x
        · simp [hyx, hxy] at h2
        · have hx : x = y := by omega
          subst hx
          simp only [hxy, hyx, if_false] at h1 h2
          rw [ih ys h1 h2]

theorem insertKV_append (k : List Nat) (v : Value) :
    ∀ m, (∀ kv ∈ m, keyLt kv.1 k = true) → insertKV m k v = m ++ [(k, v)] := by
  intro m
  induction m with
  | nil => intro; rfl
  | cons kv rest ih =>
    intro h
    obtain ⟨k', v'⟩ := kv
    have hk' : keyLt k' k = true := h _ (List.mem_cons_self _ _)
    have hnk : keyLt k k' = false := keyLt_asymm _ _ hk'
    simp only [insertKV, hnk, hk', Bool.false_eq_true, if_false, if_true]
    rw [ih (fun kv hkv => h kv (List.mem_cons_of_mem _ hkv))]
    simp

theorem lookupKV_insert_self (k : List Nat) (v : Value) :
    ∀ m, lookupKV (insertKV m k v) k = some v := by
  intro m
  induction m with
  | nil => simp [insertKV, lookupKV]
  | cons kv rest ih =>
    obtain ⟨k', v'⟩ := kv
    simp only [insertKV]
    by_cases h1 : keyLt k k' = true
    · simp [h1, lookupKV]
    · by_cases h2 : keyLt k' k = true
      · have hne : ¬ k = k' := by
          intro he
          subst he
          simp [keyLt_irrefl] at h2
        simp only [Bool.not_eq_true] at h1
        simp [h1, h2, lookupKV, hne, ih]
      · simp only [Bool.not_eq_true] at h1 h2
        have he : k' = k := keyLt_conn _ _ h2 h1
        subst he
        simp [keyLt_irrefl, lookupKV]

theorem lookupKV_insert_ne (k₀ k : List Nat) (v : Value) (hne : k ≠ k₀) :
    ∀ m, lookupKV (insertKV m k₀ v) k = lookupKV m k := by
  intro m
  induction m with
  | nil => simp [insertKV, lookupKV, hne]
  | cons kv rest ih =>
    obtain ⟨k', v'⟩ := kv
    simp only [insertKV]
    by_cases h1 : keyLt k₀ k' = true
    · simp [h1, lookupKV, hne]
    · by_cases h2 : keyLt k' k₀ = true
      · simp only [Bool.not_eq_true] at h1
        simp [h1, h2, lookupKV, ih]
      · simp only [Bool.not_eq_true] at h1 h2
        have he : k' = k₀ := keyLt_conn _ _ h2 h1
        subst he
        simp [h1, h2, lookupKV, hne]

theorem getLast?_cons_eq {α : Type} (a : α) :
    ∀ l : List α, (a :: l).getLast? = some (l.getLast?.getD a) := by
  intro l
  induction l generalizing a with
  | nil => rfl
  | cons b bs ih => rw [List.getLast?_cons_cons, ih b]; rfl

/-- Looking up a key in the map produced by the object loop finds the
conversion of the LAST child bearing that key (or defers to the accumulator
when no child does). -/
theorem fromCJSONObject_lookup (k : List Nat) :
    ∀ (cs : List (List Nat × CJSON)) (acc : List (List Nat × Value)),
    lookupKV (fromCJSONObject cs acc) k =
      match (cs.filter (fun c => c.1 == k)).getLast? with
      | some c => some (fromCJSON c.2)
      | none => lookupKV acc k := by
  intro cs
  induction cs with
  | nil => intro acc; simp [fromCJSONObject]
  | cons c rest ih =>
    intro acc
    obtain ⟨k₀, t⟩ := c
    simp only [fromCJSONObject]
    rw [ih]
    by_cases hk : k₀ = k
    · subst hk
      simp only [List.filter_cons, beq_self_eq_true, if_true]
      rw [getLast?_cons_eq]
      cases hrf : (rest.filter (fun c => c.1 == k₀)).getLast? with
      | some c' => simp [hrf]
      | none => simp [hrf, lookupKV_insert_self]
    · have hbeq : ((k₀, t).1 == k) = false := by
        simp [hk]
      simp only [List.filter_cons, hbeq, Bool.false_eq_true, if_false]
      cases hrf : (rest.filter (fun c => c.1 == k)).getLast? with
      | some c' => simp [hrf]
      | none => simp [hrf, lookupKV_insert_ne _ _ _ (fun he => hk he.symm)]

/-- Feeding the object loop children with strictly increasing keys rebuilds
the entry list in order: every insertion lands at the end. -/
theorem fromCJSONObject_sorted :
    ∀ (cs : List (List Nat × CJSON)) (acc : List (List Nat × Value)),
    List.Pairwise (fun a b => keyLt a.1 b.1 = true) cs →
    (∀ a ∈ acc, ∀ c ∈ cs, keyLt a.1 c.1 = true) →
    fromCJSONObject cs acc = acc ++ cs.map (fun c => (c.1, fromCJSON c.2)) := by
  intro cs
  induction cs with
  | nil => intro acc _ _; simp [fromCJSONObject]
  | cons c rest ih =>
    intro acc hp hacc
    obtain ⟨k, t⟩ := c
    simp only [fromCJSONObject]
    rw [insertKV_append _ _ _ (fun kv hkv => hacc kv hkv _ (List.mem_cons_self _ _))]
    rw [ih (acc ++ [(k, fromCJSON t)]) (List.pairwise_cons.mp hp).2 ?_]
    · simp
    · intro a ha c' hc'
      rcases List.mem_append.mp ha with ha' | ha'
      · exact hacc a ha' c' (List.mem_cons_of_mem _ hc')
      · simp only [List.mem_singleton] at ha'
        subst ha'
        exact (List.pairwise_cons.mp hp).1 c' hc'

/-! Helper lemmas for the serialize/parse round trip. -/

theorem cintOf_intCast (i : ℤ) : cintOf (i : ℚ) = i := by
  simp [cintOf, Rat.num_intCast, Rat.den_intCast, Int.tdiv_one]

theorem cstr_eq_self (s : List Nat) (h : s.all (fun b => !(b = 0 : Bool)) = true) :
    cstr s = s :=
  List.takeWhile_eq_self_iff.mpr (List.all_eq_true.mp h)

theorem toCJSONList_eq (l : List Value) : toCJSONList l = l.map toCJSON := by
  induction l with
  | nil => rfl
  | cons v rest ih => simp [toCJSONList, ih]

theorem toCJSONMap_eq (m : List (List Nat × Value)) :
    toCJSONMap m = m.map (fun kv => (cstr kv.1, toCJSON kv.2)) := by
  induction m with
  | nil => rfl
  | cons kv rest ih =>
    obtain ⟨k, v⟩ := kv
    simp [toCJSONMap, ih]

theorem fromCJSONArray_eq (cs : List CJSON) : fromCJSONArray cs = cs.map fromCJSON := by
  induction cs with
  | nil => rfl
  | cons c rest ih => simp [fromCJSONArray, ih]

theorem goodList_spec : ∀ l, goodList l = true → ∀ x ∈ l, goodValue x = true := by
  intro l
  induction l with
  | nil => intro _ x hx; cases hx
  | cons v rest ih =>
    intro h x hx
    simp only [goodList, Bool.and_eq_true] at h
    rcases List.mem_cons.mp hx with he | hm
    · subst he; exact h.1
    · exact ih h.2 x hm

theorem goodMap_spec :
    ∀ m, goodMap m = true →
      (∀ kv ∈ m, kv.1.all (fun b => !(b = 0 : Bool)) = true ∧ goodValue kv.2 = true) ∧
      List.Pairwise (fun a b => keyLt a.1 b.1 = true) m := by
  intro m
  induction m with
  | nil => intro _; exact ⟨by simp, List.Pairwise.nil⟩
  | cons kv rest ih =>
    intro h
    obtain ⟨k, v⟩ := kv
    simp only [goodMap, Bool.and_eq_true] at h
    obtain ⟨⟨⟨hk, hv⟩, hall⟩, hrest⟩ := h
    obtain ⟨ih1, ih2⟩ := ih hrest
    constructor
    · intro kv hkv
      rcases List.mem_cons.mp hkv with he | hm
      · subst he; exact ⟨hk, hv⟩
      · exact ih1 kv hm
    · exact List.pairwise_cons.mpr ⟨fun b hb => List.all_eq_true.mp hall b hb, ih2⟩

/-- Round trip on the good fragment, with an explicit size bound carrying the
strong induction. -/
theorem roundTrip_good :
    ∀ (n : Nat) (v : Value), sizeOf v ≤ n → goodValue v = true → roundTrip v = v := by
  intro n
  induction n with
  | zero =>
    intro v hs _
    exfalso
    cases v <;> simp at hs
  | succ n ih =>
    intro v hs hg
    cases v with
    | invalid => simp [goodValue] at hg
    | undefined => simp [goodValue] at hg
    | date t => simp [goodValue] at hg
    | custom s => simp [goodValue] at hg
    | boolean b => cases b <;> simp [roundTrip, toCJSON, fromCJSON]
    | integer i => simp [roundTrip, toCJSON, fromCJSON, cintOf_intCast]
    | double d =>
      simp only [goodValue, Bool.not_eq_true', decide_eq_false_iff_not] at hg
      simp [roundTrip, toCJSON, fromCJSON, hg]
    | string s =>
      simp only [goodValue] at hg
      simp [roundTrip, toCJSON, fromCJSON, cstr_eq_self s hg]
    | list l =>
      simp only [goodValue] at hg
      have hsl : sizeOf l ≤ n := by
        simp only [Value.list.sizeOf_spec] at hs
        omega
      simp only [roundTrip, toCJSON, fromCJSON, toCJSONList_eq, fromCJSONArray_eq,
        List.map_map]
      have hmap : ∀ x ∈ l, (fromCJSON ∘ toCJSON) x = id x := by
        intro x hx
        have h1 : sizeOf x ≤ n := by
          have := List.sizeOf_lt_of_mem hx
          omega
        exact ih x h1 (goodList_spec l hg x hx)
      rw [List.map_congr_left hmap, List.map_id]
    | map m =>
      simp only [goodValue] at hg
      obtain ⟨hent, hpw⟩ := goodMap_spec m hg
      have hsm : sizeOf m ≤ n := by
        simp only [Value.map.sizeOf_spec] at hs
        omega
      simp only [roundTrip, toCJSON, fromCJSON, toCJSONMap_eq]
      have hkeys : m.map (fun kv => (cstr kv.1, toCJSON kv.2)) =
          m.map (fun kv => (kv.1, toCJSON kv.2)) :=
        List.map_congr_left (fun kv hkv => by rw [cstr_eq_self _ (hent kv hkv).1])
      rw [hkeys]
      rw [fromCJSONObject_sorted _ [] (List.pairwise_map.mpr hpw)
        (fun a ha => absurd ha (List.not_mem_nil a))]
      simp only [List.nil_append, List.map_map]
      have hmap : ∀ kv ∈ m, ((fun c => (c.1, fromCJSON c.2)) ∘
          fun kv => (kv.1, toCJSON kv.2)) kv = id kv := by
        intro kv hkv
        have h1 : sizeOf kv.2 ≤ n := by
          have h2 := List.sizeOf_lt_of_mem hkv
          obtain ⟨k, v⟩ := kv
          simp only [Prod.mk.sizeOf_spec] at h2
          simp only []
          omega
        have h3 : roundTrip kv.2 = kv.2 := ih kv.2 h1 (hent kv hkv).2
        simp only [Function.comp_apply, id_eq]
        rw [show fromCJSON (toCJSON kv.2) = roundTrip kv.2 from rfl, h3]
      rw [List.map_congr_left hmap, List.map_id]

/-! Lemmas about number typing (the `valueint == valuedouble` test). -/

theorem cintOf_den_one (q : ℚ) (h : q.den = 1) : cintOf q = q.num := by
  simp [cintOf, h]

theorem cintOf_cast_ne (q : ℚ) (h : q.den ≠ 1) : (cintOf q : ℚ) ≠ q := by
  intro he
  exact h (he ▸ Rat.den_intCast (cintOf q))

/-! Shape lemmas for the indented formatter. -/

theorem stringFormatMap_eq (E : Hooks) (ind : Nat) :
    ∀ m, stringFormatMap E ind m =
      m.flatMap (fun kv => pad (ind - 1) ++ kv.1 ++ bytes ": " ++
        stringFormat E ind kv.2 ++ [10]) := by
  intro m
  induction m with
  | nil => simp [stringFormatMap]
  | cons kv rest ih =>
    obtain ⟨k, v⟩ := kv
    simp [stringFormatMap, ih]

/-! The claims. -/

/-- C1 (code_bug evidence): the JSON streaming formatter does NOT pass bytes
`>= 0x80` through unchanged.  With `char` signed (x86-64 Linux), such a byte
reads as negative, falls into the `ch < 0x20` branch, and
`snprintf(buffer, 7, "\u%04x", ch)` renders the eight hex digits of the
sign-extended value truncated to four: every high byte is emitted as the
fixed text `￿`.  The string holding the UTF-8 bytes C3 A9 is rendered
as `"￿￿"`, not passed through verbatim between quotes as the claim
states.  (The buffer sized exactly for `\u00XX` plus NUL shows two-digit
escapes of small values were the intent.) -/
theorem jsonEscape_highByte_mangled :
    jsonFormat hooksStub (.string [0xc3, 0xa9]) = bytes "\"\\uffff\\uffff\"" ∧
    bytes "\"\\uffff\\uffff\"" ≠ [34, 0xc3, 0xa9, 34] := by
  constructor
  · simp only [jsonFormat]
    decide
  · decide

/-- C2 (code_bug evidence): the indented formatter renders the list
`[1, "x"]` as `[1,x ]`, not `[ 1, x ]` as claimed: `output("[ ", 1)` and
`output(", ", 1)` pass length 1, emitting only the first byte of their
two-character literals (`output(" ]", 2)` emits both). -/
theorem stringFormatter_list_spacing_bug :
    stringFormat hooksStub 0 (.list [.integer 1, .string (bytes "x")]) =
      bytes "[1,x ]" ∧
    bytes "[1,x ]" ≠ bytes "[ 1, x ]" := by
  constructor
  · simp only [stringFormat, stringFormatList, intDec]
    decide
  · decide

/-- C3 counterexample: the round trip fails on values the claim includes.
`Double 5.0` serializes to a numeric node whose value equals its integer
truncation, so `fromCJSON` returns `Integer 5`, not `Double 5.0`; and a
`String` containing a NUL byte is truncated by the `constData()` call in
`toCJSON`. -/
theorem roundTrip_counterexample :
    roundTrip (.double 5) = .integer 5 ∧ Value.double 5 ≠ Value.integer 5 ∧
    roundTrip (.string [104, 0, 105]) = .string [104] ∧
    Value.string [104, 0, 105] ≠ Value.string [104] := by
  refine ⟨?_, ?_, ?_, ?_⟩
  · simp [roundTrip, fromCJSON, toCJSON, cintOf]
  · intro h
    exact Value.noConfusion h
  · simp [roundTrip, fromCJSON, toCJSON, cstr]
  · intro h
    simp at h

/-- C3 amended: `parse(serialize(v, false))` (the external cJSON print/parse
pair modelled as faithful on trees) reproduces `v` for every value built
only from Boolean, Integer, Double, String, List and Map, provided every
Double sub-value is non-integral, every String payload and Map key is
NUL-free, and every Map satisfies the container's sorted-unique-key
invariant. -/
theorem roundTrip_fragment (v : Value) (h : goodValue v = true) : roundTrip v = v :=
  roundTrip_good (sizeOf v) v le_rfl h

/-- Witness for the round-trip theorem at a concrete fragment value. -/
theorem roundTrip_fragment_witness :
    goodValue (.list [.integer 1, .string (bytes "x"),
      .map [(bytes "a", .boolean true), (bytes "b", .integer 2)]]) = true ∧
    roundTrip (.list [.integer 1, .string (bytes "x"),
      .map [(bytes "a", .boolean true), (bytes "b", .integer 2)]]) =
      .list [.integer 1, .string (bytes "x"),
        .map [(bytes "a", .boolean true), (bytes "b", .integer 2)]] := by
  have hg : goodValue (.list [.integer 1, .string (bytes "x"),
      .map [(bytes "a", .boolean true), (bytes "b", .integer 2)]]) = true := by
    simp only [goodValue, goodList, goodMap]
    decide
  exact ⟨hg, roundTrip_fragment _ hg⟩

/-- C4: a Number node becomes `Integer` exactly when its (double) value is an
integer — `valueint`, the truncation toward zero, converted back to double,
compares equal — and `Double` otherwise.  (Inputs `5` and `5.0` both parse
to the double value 5, an integer, hence `Integer 5`; `5.5` is not, hence
`Double 5.5`.) -/
theorem number_typing (q : ℚ) :
    (q.den = 1 → fromCJSON (.number q) = .integer q.num) ∧
    (q.den ≠ 1 → fromCJSON (.number q) = .double q) := by
  constructor
  · intro h
    have h1 : cintOf q = q.num := cintOf_den_one q h
    have h2 : (cintOf q : ℚ) = q := by
      rw [h1]
      exact (Rat.den_eq_one_iff q).mp h
    simp only [fromCJSON]
    rw [if_pos h2, h1]
  · intro h
    simp only [fromCJSON]
    rw [if_neg (cintOf_cast_ne q h)]

/-- Witness for the number-typing theorem: 5 and 5.0 yield `Integer 5`,
11/2 = 5.5 yields `Double 5.5`. -/
theorem number_typing_witness :
    fromCJSON (.number 5) = .integer 5 ∧
    fromCJSON (.number (5.0 : ℚ)) = .integer 5 ∧
    fromCJSON (.number (11 / 2)) = .double (11 / 2) := by
  refine ⟨?_, ?_, ?_⟩
  · have h := (number_typing 5).1 (by norm_num)
    simpa using h
  · have h := (number_typing (5.0 : ℚ)).1 (by norm_num)
    have h2 : ((5.0 : ℚ).num) = 5 := by norm_num
    have h3 : (5.0 : ℚ) = 5 := by norm_num
    rw [h2] at h
    rw [h3] at h ⊢
    exact h
  · exact (number_typing (11 / 2)).2 (by norm_num)

/-- C5 counterexample: a top-level map (Map-nesting depth d = 1) does not get
d - 1 = 0 leading spaces.  `%*s` right-justifies the one-character string
`" "` in its field, and a field width is a minimum, so width 0 still prints
the one space of the argument: the map with single entry a: 1 renders as
`" a: 1\n"` (one leading space), not `"a: 1\n"` as the claim requires. -/
theorem map_indent_counterexample :
    stringFormat hooksStub 0 (.map [(bytes "a", .integer 1)]) = bytes " a: 1\n" ∧
    bytes " a: 1\n" ≠ bytes "a: 1\n" := by
  constructor
  · simp only [stringFormat, stringFormatMap, intDec, pad]
    decide
  · decide

/-- C5 amended: a map value rendered at indent `ind` (a map at Map-nesting
depth d enters with `ind = d - 1`: the top-level render starts at 0 and only
the Map case increments it) produces one segment per entry consisting of
`max (d-1) 1` leading spaces — `(d-1)` as claimed for every nested map, but
one space instead of zero for a top-level map — then the key, a colon and
space, the value rendered at the incremented indent, then a newline.  List
nesting passes `ind` through unchanged (second conjunct). -/
theorem map_indent_amended (E : Hooks) (ind : Nat) (m : List (List Nat × Value)) :
    stringFormat E ind (.map m) =
      m.flatMap (fun kv => List.replicate (max ind 1) 32 ++ kv.1 ++ bytes ": " ++
        stringFormat E (ind + 1) kv.2 ++ [10]) ∧
    ∀ v : Value, stringFormat E ind (.list [v]) =
      bytes "[" ++ stringFormat E ind v ++ bytes " ]" := by
  constructor
  · simp only [stringFormat]
    rw [stringFormatMap_eq]
    simp [pad]
  · intro v
    simp [stringFormat, stringFormatList]

/-- C6: an Object node is converted child by child into a map, and when a key
occurs several times the LAST occurrence wins: looking a key up in the
resulting map yields the conversion of the last child carrying it.  In
particular the tree of `[a:1, a:2]` duplicate-key text parses to the
single-entry map a maps-to Integer 2. -/
theorem object_lastKeyWins :
    (∀ (cs : List (List Nat × CJSON)) (k : List Nat),
      fromCJSON (.object cs) = .map (fromCJSONObject cs []) ∧
      lookupKV (fromCJSONObject cs []) k =
        ((cs.filter (fun c => c.1 == k)).getLast?).map (fun c => fromCJSON c.2)) ∧
    fromCJSON (.object [(bytes "a", .number 1), (bytes "a", .number 2)]) =
      .map [(bytes "a", .integer 2)] := by
  constructor
  · intro cs k
    constructor
    · simp [fromCJSON]
    · rw [fromCJSONObject_lookup]
      cases hrf : (cs.filter (fun c => c.1 == k)).getLast? with
      | some c => simp [hrf]
      | none => simp [hrf, lookupKV]
  · simp [fromCJSON, fromCJSONObject, insertKV, keyLt, cintOf, bytes]

/-- C7: `Value::fromJSON` returns the default-constructed `Invalid` value and
`ok = false` when the external parser rejects the text (null tree), and
`(fromCJSON(root), true)` when it succeeds — no partial value in either
case. -/
theorem parse_result_semantics :
    fromJSON none = (Value.invalid, false) ∧
    ∀ t : CJSON, fromJSON (some t) = (fromCJSON t, true) :=
  ⟨rfl, fun _ => rfl⟩

/-- C8: the JSON streaming formatter escapes a Custom payload's `toString()`
text exactly as it escapes an ordinary String value (both go through the
escape lambda), whereas `Value::toCJSON` emits the same payload text as a
raw string node (`cJSON_RawString`) that the external printer copies without
JSON string escaping, unlike the ordinary string node a String value gets. -/
theorem custom_escaping_asymmetry (E : Hooks) (s : List Nat) :
    jsonFormat E (.custom s) = jsonFormat E (.string s) ∧
    jsonFormat E (.custom s) = escape s ∧
    toCJSON (.custom s) = .rawString (cstr s) ∧
    toCJSON (.string s) = CJSON.string (cstr s) := by
  refine ⟨?_, ?_, ?_, ?_⟩ <;> simp [jsonFormat, toCJSON]

/-- C9: `Value::toCJSON` turns a Date into a numeric node holding its time
value, which `fromCJSON` reads back as `Integer` (not `Date`); the JSON
streaming formatter instead renders a Date through the external
`String::formatTime` utility as an escaped, quoted string — its first output
byte is a double quote, not a digit. -/
theorem date_asymmetry (E : Hooks) (t : Int) :
    toCJSON (.date t) = .number (t : ℚ) ∧
    fromCJSON (toCJSON (.date t)) = .integer t ∧
    jsonFormat E (.date t) = escape (E.formatTime t) ∧
    (jsonFormat E (.date t)).head? = some 34 := by
  refine ⟨?_, ?_, ?_, ?_⟩
  · simp [toCJSON]
  · simp [toCJSON, fromCJSON, cintOf_intCast]
  · simp [jsonFormat]
  · simp [jsonFormat, escape]

/-- C10: the indented human-readable formatter emits exactly the text "null"
for both `Invalid` and `Undefined` values, at every indent. -/
theorem stringFormatter_null (E : Hooks) (ind : Nat) :
    stringFormat E ind .invalid = bytes "null" ∧
    stringFormat E ind .undefined = bytes "null" := by
  constructor <;> simp [stringFormat]
